import Mathlib

/-!
Verification of the row-splitting pipeline in `src/glue_scripts/split_csv_rows.py`.

The program is embedded shallowly over `List Char` / `String`:
pure helpers (`parse_s3_uri`, `safe_filename`, `str2bool`) become Lean
functions, and the body of `main` (the row loop, manifest accumulation and
failure reporting) becomes a state-passing function `runMain` whose result
records the sequence of successful per-row object writes, the manifest (if
written), and the run report.  Storage write failures are injected through a
`failAt` parameter naming the 1-based row whose `put_object` call raises.
-/

/-! ### Character classes used by `safe_filename` -/

/-- The allow-set of the regex `[^A-Za-z0-9._-]` in `safe_filename`
(`Char.isAlphanum` is exactly ASCII `A-Za-z0-9`). -/
def allowedChar (c : Char) : Bool :=
  c.isAlphanum || c == '.' || c == '_' || c == '-'

/-- Whitespace removed by Python's `str.strip()` (ASCII whitespace; further
Unicode space characters are in any case outside the allow-set, so their
treatment does not affect any property proved below). -/
def pySpace (c : Char) : Bool :=
  c == ' ' || c == '\t' || c == '\n' || c == '\r' || c == '\x0b' || c == '\x0c'

/-- Characters stripped from both ends by `.strip("._-")`. -/
def stripSet (c : Char) : Bool :=
  c == '.' || c == '_' || c == '-'

/-- `re.sub(r"[^A-Za-z0-9._-]+", "_", ·)`: each maximal run of disallowed
characters is replaced by a single underscore.  The boolean argument records
whether the previous character was part of a disallowed run (in which case
the current disallowed character extends that run and emits nothing). -/
def collapseAux : Bool → List Char → List Char
  | _, [] => []
  | prevBad, c :: cs =>
    if allowedChar c then c :: collapseAux false cs
    else if prevBad then collapseAux true cs
    else '_' :: collapseAux true cs

def collapseRuns (l : List Char) : List Char := collapseAux false l

/-- Python `str.strip` / `str.strip(chars)`: remove characters satisfying `p`
from both ends. -/
def trimLeftP (p : Char → Bool) (l : List Char) : List Char := l.dropWhile p

def trimRightP (p : Char → Bool) (l : List Char) : List Char :=
  (l.reverse.dropWhile p).reverse

def pyStripWith (p : Char → Bool) (l : List Char) : List Char :=
  trimRightP p (trimLeftP p l)

/-- The `cleaned` value of `safe_filename`:
`re.sub(r"[^A-Za-z0-9._-]+", "_", name.strip()).strip("._-")`. -/
def sfCore (name : String) : List Char :=
  pyStripWith stripSet (collapseRuns (pyStripWith pySpace name.data))

/-- `safe_filename` from the source:
`cleaned = re.sub(r"[^A-Za-z0-9._-]+", "_", name.strip())`,
`cleaned = cleaned.strip("._-")`, `return cleaned or "unnamed"`. -/
def safe_filename (name : String) : String :=
  if (sfCore name).isEmpty then "unnamed" else ⟨sfCore name⟩

/-- Python `str.lower()` (ASCII case mapping, which is all the comparison set
below can distinguish). -/
def pyLower (s : String) : String := ⟨s.data.map Char.toLower⟩

/-- `str2bool` from the source: `str(value).lower() in {"1","true","t","yes","y"}`. -/
def str2bool (value : String) : Bool :=
  ["1", "true", "t", "yes", "y"].contains (pyLower value)

/-- Lines 133-134 of the source: `include_header = str2bool(args_ns.include_header)`
and `write_run_log = str2bool(args_ns.write_run_log)`. -/
def resolveFlags (includeHeaderRaw writeRunLogRaw : String) : Bool × Bool :=
  (str2bool includeHeaderRaw, str2bool writeRunLogRaw)

/-- `parse_s3_uri` from the source.  `none` models the raised `ValueError`.
After the `s3://` scheme (5 characters) the remainder is split on the first
`/` into bucket and key; with no `/` the key is empty. -/
def parse_s3_uri (uri : String) : Option (String × String) :=
  if ("s3://".data).isPrefixOf uri.data then
    let rest := uri.data.drop 5
    some (⟨rest.takeWhile (fun c => !(c == '/'))⟩,
          ⟨(rest.dropWhile (fun c => !(c == '/'))).drop 1⟩)
  else none

/-- `normalize_prefix` from the source: append `/` when the string is
non-empty and does not already end with `/`. -/
def normalizePrefixStr (p : String) : String :=
  if p.data.isEmpty then p
  else if p.data.getLast? == some '/' then p else p ++ "/"

/-! ### CSV serialization (`csv.DictWriter` with `lineterminator="\n"`) -/

/-- Doubling of the quote character inside a quoted field
(`doublequote=True`, the module default). -/
def doubleQuotes (q : Char) : List Char → List Char
  | [] => []
  | c :: cs => if c = q then q :: q :: doubleQuotes q cs else c :: doubleQuotes q cs

/-- One serialized field under `QUOTE_MINIMAL`: quoted iff it contains the
delimiter, the quote character, CR or LF — or when it is the only field of
the record and empty (the csv module quotes a lone empty field so the record
does not serialize to an empty line). -/
def csvCell (d q : Char) (lone : Bool) (s : String) : String :=
  if (lone && s.data.isEmpty) || s.data.contains d || s.data.contains q
      || s.data.contains '\r' || s.data.contains '\n' then
    ⟨q :: (doubleQuotes q s.data ++ [q])⟩
  else s

/-- Fields joined by the delimiter. -/
def joinCells (d : Char) : List String → String
  | [] => ""
  | [s] => s
  | s :: s' :: rest => s ++ String.mk [d] ++ joinCells d (s' :: rest)

/-- One CSV record (no line terminator). -/
def csvRecord (d q : Char) (cells : List String) : String :=
  joinCells d (cells.map (csvCell d q (cells.length == 1)))

/-! ### The row loop of `main` -/

/-- A parsed data row, as produced by `csv.DictReader`: an association from
column name to value.  A column that is absent from the association models a
key that is missing or has value `None`. -/
abbrev CsvRow := List (String × String)

/-- The values of a row in header order, as extracted by `csv.DictWriter`
(missing keys become the empty-string `restval`). -/
def rowCells (fns : List String) (row : CsvRow) : List String :=
  fns.map (fun f => (row.lookup f).getD "")

/-- The resolved job configuration used by the row loop. -/
structure SplitCfg where
  idColumn : String
  delimiter : Char
  quotechar : Char
  includeHeader : Bool
  writeRunLog : Bool
  outputBucket : String
  /-- the normalized output key prefix string -/
  outPre : String
  inputUri : String
deriving DecidableEq

/-- The body of one per-row output object: optional header line, then exactly
the one data row, each terminated by `"\n"` (lines 203-215 of the source). -/
def rowOutput (cfg : SplitCfg) (fns : List String) (row : CsvRow) : String :=
  (if cfg.includeHeader then csvRecord cfg.delimiter cfg.quotechar fns ++ "\n" else "")
    ++ csvRecord cfg.delimiter cfg.quotechar (rowCells fns row) ++ "\n"

/-- Line 195: `raw_name = row.get(args_ns.id_column) or f"row-{idx}"` —
a missing key (or a `None` value from a short row) and the empty string are
both falsy. -/
def rawNameOf (cfg : SplitCfg) (idx : Nat) (row : CsvRow) : String :=
  match row.lookup cfg.idColumn with
  | some v => if v = "" then "row-" ++ Nat.repr idx else v
  | none => "row-" ++ Nat.repr idx

/-- Line 196: `base_name = safe_filename(str(raw_name)) or f"row-{idx}"`. -/
def baseNameOf (cfg : SplitCfg) (idx : Nat) (row : CsvRow) : String :=
  let s := safe_filename (rawNameOf cfg idx row)
  if s = "" then "row-" ++ Nat.repr idx else s

/-- Line 200: `final_name = base_name if count == 0 else f"{base_name}-{count}"`. -/
def finalNameFor (base : String) (count : Nat) : String :=
  if count = 0 then base else base ++ "-" ++ Nat.repr count

/-- Line 199: `name_counts[base_name] = count + 1` over the registry,
modelled as a total function that is `0` on unseen names. -/
def bump (counts : String → Nat) (b : String) : String → Nat :=
  fun x => if x = b then counts b + 1 else counts x

/-- The sanitized base names of the rows, in order, starting at row index `idx`. -/
def baseList (cfg : SplitCfg) : List CsvRow → Nat → List String
  | [], _ => []
  | row :: rest, idx => baseNameOf cfg idx row :: baseList cfg rest (idx + 1)

/-- The registry-based collision policy applied to a list of base names. -/
def finalNames : List String → (String → Nat) → List String
  | [], _ => []
  | b :: rest, counts => finalNameFor b (counts b) :: finalNames rest (bump counts b)

/-- One record of the manifest `files` list (lines 218-224). -/
structure FileRecord where
  s3_uri : String
  row_index : Nat
  source_identifier : String
deriving DecidableEq

/-- Accumulated observable state of the row loop. -/
structure LoopResult where
  /-- successful `put_object` calls for per-row files, in order: (key, body) -/
  puts : List (String × String)
  files : List FileRecord
  /-- the `total` counter (incremented at the top of the loop body) -/
  total : Nat
  /-- `false` when a write failure aborted the loop -/
  ok : Bool
deriving DecidableEq

/-- Lines 193-227 of the source: one iteration per row; `total` is
incremented before the names are derived and the object is written; the put
of row `idx` raises iff `failAt = some idx`, aborting the loop with the
earlier writes retained. -/
def runLoop (cfg : SplitCfg) (fns : List String) (failAt : Option Nat) :
    List CsvRow → Nat → (String → Nat) → LoopResult
  | [], _, _ => ⟨[], [], 0, true⟩
  | row :: rest, idx, counts =>
    let base := baseNameOf cfg idx row
    let count := counts base
    let finalName := finalNameFor base count
    let outKey := cfg.outPre ++ finalName ++ ".csv"
    if failAt = some idx then ⟨[], [], 1, false⟩
    else
      let r := runLoop cfg fns failAt rest (idx + 1) (bump counts base)
      ⟨(outKey, rowOutput cfg fns row) :: r.puts,
       ⟨"s3://" ++ cfg.outputBucket ++ "/" ++ outKey, idx, rawNameOf cfg idx row⟩ :: r.files,
       1 + r.total, r.ok⟩

/-- The manifest JSON object (lines 230-245). -/
structure Manifest where
  input : String
  output_prefix_uri : String
  files : List FileRecord
  total_rows : Nat
  id_column : String
deriving DecidableEq

/-- The failure report (lines 281-298); only the field the claims speak
about is retained. -/
structure FailReport where
  processed_rows : Nat
deriving DecidableEq

/-- Observable outcome of one run of `main`. -/
structure RunResult where
  puts : List (String × String)
  manifest : Option Manifest
  summaryWritten : Bool
  failReport : Option FailReport
  succeeded : Bool
deriving DecidableEq

/-- The failure path of `main`: no manifest, a failure report carrying the
current `total` when reporting is enabled, and the job marked failed. -/
def failResult (cfg : SplitCfg) (n : Nat) : RunResult :=
  { puts := [], manifest := none, summaryWritten := false
    failReport := if cfg.writeRunLog then some ⟨n⟩ else none
    succeeded := false }

/-- Lines 187-303 of `main`, from the header check to the run report:
`fieldnames` that are `None` or empty abort before the loop; otherwise the
loop runs, and on success the manifest and (optionally) the summary are
written, while on a write failure nothing further is written except the
optional failure report. -/
def runMain (cfg : SplitCfg) (fieldnames : Option (List String))
    (rows : List CsvRow) (failAt : Option Nat) : RunResult :=
  match fieldnames with
  | none => failResult cfg 0
  | some [] => failResult cfg 0
  | some fns =>
    let r := runLoop cfg fns failAt rows 1 (fun _ => 0)
    if r.ok then
      { puts := r.puts
        manifest := some
          { input := cfg.inputUri
            output_prefix_uri := "s3://" ++ cfg.outputBucket ++ "/" ++ cfg.outPre
            files := r.files
            total_rows := r.total
            id_column := cfg.idColumn }
        summaryWritten := cfg.writeRunLog
        failReport := none
        succeeded := true }
    else
      { puts := r.puts
        manifest := none
        summaryWritten := false
        failReport := if cfg.writeRunLog then some ⟨r.total⟩ else none
        succeeded := false }

/-! ### Decimal numerals: `Nat.repr` is injective and never empty -/

/-- Specification of the decimal digit string, most significant digit first. -/
def decDigits (n : Nat) : List Char :=
  if _h : n < 10 then [Nat.digitChar n]
  else decDigits (n / 10) ++ [Nat.digitChar (n % 10)]
termination_by n
decreasing_by exact Nat.div_lt_self (by omega) (by omega)

theorem toDigitsCore_eq_decDigits :
    ∀ (f n : Nat) (acc : List Char), n < f →
      Nat.toDigitsCore 10 f n acc = decDigits n ++ acc := by
  intro f
  induction f with
  | zero => intro n acc h; omega
  | succ f ih =>
    intro n acc h
    by_cases h10 : n < 10
    · have hdiv : n / 10 = 0 := Nat.div_eq_of_lt h10
      have hmod : n % 10 = n := Nat.mod_eq_of_lt h10
      simp [Nat.toDigitsCore, hdiv, hmod, decDigits, h10]
    · have hdiv : n / 10 ≠ 0 := by
        intro hz
        have := Nat.div_eq_of_lt (by omega : n < 10)
        · exact h10 (by omega)
      have hlt : n / 10 < f := by
        have h1 : n / 10 < n := Nat.div_lt_self (by omega) (by omega)
        omega
      rw [decDigits]
      simp only [Nat.toDigitsCore, h10, dif_neg, hdiv, if_false]
      rw [ih (n / 10) (Nat.digitChar (n % 10) :: acc) hlt]
      simp

theorem decDigits_length_pos (n : Nat) : 0 < (decDigits n).length := by
  rw [decDigits]
  split
  · simp
  · simp

theorem foldl_decDigits (n : Nat) :
    ∀ a : Nat, (decDigits n).foldl (fun acc c => 10 * acc + (c.toNat - 48)) a
      = a * 10 ^ (decDigits n).length + n := by
  induction n using decDigits.induct with
  | case1 n h =>
    intro a
    have hc : (Nat.digitChar n).toNat = 48 + n := by interval_cases n <;> rfl
    rw [decDigits]; simp [h, hc]; omega
  | case2 n h ih =>
    intro a
    rw [decDigits, dif_neg h, List.foldl_append, ih]
    simp only [List.foldl_cons, List.foldl_nil, List.length_append, List.length_cons,
      List.length_nil]
    have hc : (Nat.digitChar (n % 10)).toNat = 48 + n % 10 := by
      have : n % 10 < 10 := Nat.mod_lt _ (by omega)
      interval_cases hm : n % 10 <;> simp [hm] <;> rfl
    rw [hc, pow_succ]
    have hdm := Nat.div_add_mod n 10
    generalize (10 : Nat) ^ (decDigits (n / 10)).length = K
    have : 48 + n % 10 - 48 = n % 10 := by omega
    rw [this]
    nlinarith [hdm]

theorem decDigits_injective : Function.Injective decDigits := by
  intro m n h
  have hm := foldl_decDigits m 0
  have hn := foldl_decDigits n 0
  rw [h] at hm
  simp at hm hn
  omega

theorem repr_eq_decDigits (n : Nat) : Nat.repr n = ⟨decDigits n⟩ := by
  show (Nat.toDigits 10 n).asString = _
  rw [Nat.toDigits, toDigitsCore_eq_decDigits (n + 1) n [] (by omega)]
  simp [List.asString]

theorem natRepr_injective : Function.Injective Nat.repr := by
  intro m n h
  rw [repr_eq_decDigits, repr_eq_decDigits] at h
  exact decDigits_injective (congrArg String.data h)

theorem natRepr_data_length_pos (n : Nat) : 0 < (Nat.repr n).data.length := by
  rw [repr_eq_decDigits]
  exact decDigits_length_pos n

/-! ### General list helpers -/

theorem length_dropWhile_le' (p : Char → Bool) (l : List Char) :
    (l.dropWhile p).length ≤ l.length := by
  induction l with
  | nil => simp
  | cons c cs ih =>
    rw [List.dropWhile_cons]
    split
    · exact Nat.le_trans ih (by simp)
    · simp

theorem exists_append_dropWhile (p : Char → Bool) (l : List Char) :
    ∃ t, l = t ++ l.dropWhile p := by
  induction l with
  | nil => exact ⟨[], rfl⟩
  | cons c cs ih =>
    rw [List.dropWhile_cons]
    split
    · obtain ⟨t, ht⟩ := ih
      exact ⟨c :: t, by simp [← ht]⟩
    · exact ⟨[], rfl⟩

theorem dropWhile_eq_self_of_none (p : Char → Bool) (l : List Char)
    (h : ∀ c ∈ l, p c = false) : l.dropWhile p = l := by
  cases l with
  | nil => rfl
  | cons c cs => rw [List.dropWhile_cons, h c (by simp)]; simp

theorem dropWhile_idem (p : Char → Bool) (l : List Char) :
    (l.dropWhile p).dropWhile p = l.dropWhile p := by
  induction l with
  | nil => rfl
  | cons c cs ih =>
    rw [List.dropWhile_cons]
    split
    · exact ih
    · rw [List.dropWhile_cons]
      simp_all

theorem dropWhile_eq_self_of_append (p : Char → Bool) (r s l : List Char)
    (hl : l.dropWhile p = l) (hrs : l = r ++ s) : r.dropWhile p = r := by
  cases r with
  | nil => rfl
  | cons c t =>
    have hc : p c = false := by
      by_contra hpc
      have hpc' : p c = true := by simpa using hpc
      subst hrs
      rw [List.cons_append, List.dropWhile_cons, if_pos hpc'] at hl
      have h1 := length_dropWhile_le' p (t ++ s)
      have h2 := congrArg List.length hl
      rw [List.length_cons] at h2
      omega
    rw [List.dropWhile_cons, hc]
    simp

/-! ### Properties of the sanitizer -/

theorem mem_trimRightP (p : Char → Bool) (l : List Char) (c : Char)
    (h : c ∈ trimRightP p l) : c ∈ l := by
  unfold trimRightP at h
  rw [List.mem_reverse] at h
  obtain ⟨t, ht⟩ := exists_append_dropWhile p l.reverse
  have : c ∈ l.reverse := by rw [ht]; exact List.mem_append_right t h
  rwa [List.mem_reverse] at this

theorem mem_pyStripWith (p : Char → Bool) (l : List Char) (c : Char)
    (h : c ∈ pyStripWith p l) : c ∈ l := by
  unfold pyStripWith trimLeftP at h
  have h1 : c ∈ l.dropWhile p := mem_trimRightP p _ c h
  obtain ⟨t, ht⟩ := exists_append_dropWhile p l
  rw [ht]
  exact List.mem_append_right t h1

theorem mem_collapseAux_allowed :
    ∀ (b : Bool) (l : List Char) (c : Char), c ∈ collapseAux b l → allowedChar c = true := by
  intro b l
  induction l generalizing b with
  | nil => intro c h; simp [collapseAux] at h
  | cons x xs ih =>
    intro c h
    rw [collapseAux] at h
    split at h
    · rcases List.mem_cons.mp h with h' | h'
      · subst h'; assumption
      · exact ih false c h'
    · split at h
      · exact ih true c h
      · rcases List.mem_cons.mp h with h' | h'
        · subst h'; decide
        · exact ih true c h'

theorem collapseAux_eq_self (b : Bool) (l : List Char)
    (h : ∀ c ∈ l, allowedChar c = true) : collapseAux b l = l := by
  induction l generalizing b with
  | nil => rfl
  | cons x xs ih =>
    rw [collapseAux, if_pos (h x (by simp))]
    rw [ih false (fun c hc => h c (List.mem_cons_of_mem x hc))]

theorem trimRightP_eq_self (p : Char → Bool) (l : List Char)
    (h : ∀ c ∈ l, p c = false) : trimRightP p l = l := by
  unfold trimRightP
  rw [dropWhile_eq_self_of_none p _ (fun c hc => h c (List.mem_reverse.mp hc))]
  exact List.reverse_reverse l

theorem pyStripWith_eq_self (p : Char → Bool) (l : List Char)
    (h : ∀ c ∈ l, p c = false) : pyStripWith p l = l := by
  unfold pyStripWith trimLeftP
  rw [dropWhile_eq_self_of_none p l h]
  exact trimRightP_eq_self p l h

theorem trimRightP_is_prefix_part (p : Char → Bool) (l : List Char) :
    ∃ s, l = trimRightP p l ++ s := by
  obtain ⟨t, ht⟩ := exists_append_dropWhile p l.reverse
  refine ⟨t.reverse, ?_⟩
  unfold trimRightP
  calc l = l.reverse.reverse := (List.reverse_reverse l).symm
    _ = (t ++ l.reverse.dropWhile p).reverse := by rw [← ht]
    _ = (l.reverse.dropWhile p).reverse ++ t.reverse := by rw [List.reverse_append]

theorem trimRightP_idem (p : Char → Bool) (l : List Char) :
    trimRightP p (trimRightP p l) = trimRightP p l := by
  unfold trimRightP
  rw [List.reverse_reverse, dropWhile_idem]

theorem pyStripWith_idem (p : Char → Bool) (l : List Char) :
    pyStripWith p (pyStripWith p l) = pyStripWith p l := by
  have hx : (trimLeftP p l).dropWhile p = trimLeftP p l := dropWhile_idem p l
  obtain ⟨s, hs⟩ := trimRightP_is_prefix_part p (trimLeftP p l)
  have hleft : trimLeftP p (pyStripWith p l) = pyStripWith p l := by
    unfold pyStripWith trimLeftP
    exact dropWhile_eq_self_of_append p _ s _ hx hs
  show trimRightP p (trimLeftP p (pyStripWith p l)) = pyStripWith p l
  rw [hleft]
  show trimRightP p (trimRightP p (trimLeftP p l)) = _
  exact trimRightP_idem p _

theorem allowedChar_not_pySpace (c : Char) (h : allowedChar c = true) :
    pySpace c = false := by
  by_contra hs
  rw [Bool.not_eq_false, pySpace] at hs
  simp only [Bool.or_eq_true, beq_iff_eq] at hs
  rcases hs with ((((h1 | h1) | h1) | h1) | h1) | h1 <;> subst h1 <;>
    exact absurd h (by decide)

theorem allowedChar_not_stripSet_src (c : Char) (h : stripSet c = true) :
    c = '.' ∨ c = '_' ∨ c = '-' := by
  rw [stripSet] at h
  simp only [Bool.or_eq_true, beq_iff_eq] at h
  tauto

theorem safe_filename_chars_allowed (s : String) (c : Char)
    (h : c ∈ (safe_filename s).data) : allowedChar c = true := by
  rw [safe_filename] at h
  split at h
  · have h' : c ∈ ['u', 'n', 'n', 'a', 'm', 'e', 'd'] := h
    fin_cases h' <;> decide
  · exact mem_collapseAux_allowed false _ c (mem_pyStripWith stripSet _ c h)

theorem safe_filename_ne_empty (s : String) : safe_filename s ≠ "" := by
  rw [safe_filename]
  split
  · decide
  · next hne =>
    intro h
    have h2 : sfCore s = [] := congrArg String.data h
    rw [h2] at hne
    simp at hne

theorem safe_filename_idem (s : String) :
    safe_filename (safe_filename s) = safe_filename s := by
  by_cases hempty : (sfCore s).isEmpty
  · have h1 : safe_filename s = "unnamed" := by rw [safe_filename, if_pos hempty]
    rw [h1]; decide
  · have h1 : safe_filename s = ⟨sfCore s⟩ := by rw [safe_filename, if_neg hempty]
    have hall : ∀ c ∈ sfCore s, allowedChar c = true := by
      intro c hc
      have : c ∈ (safe_filename s).data := by rw [h1]; exact hc
      exact safe_filename_chars_allowed s c this
    have hcore : sfCore ⟨sfCore s⟩ = sfCore s := by
      show pyStripWith stripSet (collapseRuns (pyStripWith pySpace (sfCore s))) = _
      rw [pyStripWith_eq_self pySpace _ (fun c hc => allowedChar_not_pySpace c (hall c hc))]
      rw [show collapseRuns (sfCore s) = sfCore s from collapseAux_eq_self false _ hall]
      show pyStripWith stripSet (pyStripWith stripSet _) = _
      exact pyStripWith_idem stripSet _
    rw [h1, safe_filename, hcore, if_neg hempty]

/-! ### The collision registry -/

theorem finalNames_getElem? (bs : List String) :
    ∀ (counts : String → Nat) (p : Nat) (b : String), bs[p]? = some b →
      (finalNames bs counts)[p]? =
        some (finalNameFor b (counts b + (bs.take p).count b)) := by
  induction bs with
  | nil => intro counts p b h; simp at h
  | cons b0 rest ih =>
    intro counts p b h
    cases p with
    | zero =>
      simp only [List.getElem?_cons_zero, Option.some.injEq] at h
      subst h
      simp [finalNames]
    | succ p =>
      simp only [List.getElem?_cons_succ] at h
      rw [finalNames]
      simp only [List.getElem?_cons_succ]
      rw [ih (bump counts b0) p b h]
      have htake : (b0 :: rest).take (p + 1) = b0 :: rest.take p := rfl
      rw [htake, List.count_cons]
      by_cases hbb : b = b0
      · subst hbb
        simp [bump]
        congr 1
        omega
      · have : (b0 == b) = false := by simpa using fun hh => hbb hh.symm
        simp [bump, hbb, this]

theorem count_take_lt (bs : List String) (p q : Nat) (b : String)
    (hpq : p < q) (hbp : bs[p]? = some b) :
    (bs.take p).count b < (bs.take q).count b := by
  have hp : p < bs.length := by
    by_contra hge
    rw [List.getElem?_eq_none (by omega)] at hbp
    exact Option.noConfusion hbp
  have hq1 : q = (p + 1) + (q - (p + 1)) := by omega
  rw [hq1, List.take_add, List.count_append]
  have hsucc : bs.take (p + 1) = bs.take p ++ [b] := by
    rw [List.take_succ, hbp]
    rfl
  rw [hsucc, List.count_append, List.count_singleton]
  simp only [beq_self_eq_true, if_pos]
  omega

theorem finalNameFor_ne (b : String) (c d : Nat) (h : c < d) :
    finalNameFor b c ≠ finalNameFor b d := by
  intro heq
  rw [finalNameFor, finalNameFor] at heq
  have hd : ¬ d = 0 := by omega
  by_cases hc : c = 0
  · rw [if_pos hc, if_neg hd] at heq
    have hdata := congrArg String.data heq
    simp only [String.data_append] at hdata
    have hlen := congrArg List.length hdata
    simp only [List.length_append] at hlen
    have := natRepr_data_length_pos d
    have hdash : ("-" : String).data.length = 1 := rfl
    omega
  · rw [if_neg hc, if_neg hd] at heq
    have hdata := congrArg String.data heq
    simp only [String.data_append, List.append_assoc] at hdata
    have h1 := List.append_cancel_left hdata
    have h2 := List.append_cancel_left h1
    have : Nat.repr c = Nat.repr d := String.ext h2
    have := natRepr_injective this
    omega

theorem finalNames_ne_of_same_base (bs : List String) (counts : String → Nat)
    (p q : Nat) (b : String) (hpq : p < q)
    (hbp : bs[p]? = some b) (hbq : bs[q]? = some b) :
    (finalNames bs counts)[p]? ≠ (finalNames bs counts)[q]? := by
  rw [finalNames_getElem? bs counts p b hbp, finalNames_getElem? bs counts q b hbq]
  intro h
  have h' := Option.some.inj h
  have hcnt := count_take_lt bs p q b hpq hbp
  exact finalNameFor_ne b _ _ (by omega) h'

/-! ### Behaviour of the row loop -/

theorem runLoop_none_ok (cfg : SplitCfg) (fns : List String) :
    ∀ (rows : List CsvRow) (idx : Nat) (counts : String → Nat),
      (runLoop cfg fns none rows idx counts).ok = true := by
  intro rows
  induction rows with
  | nil => intro idx counts; rfl
  | cons row rest ih =>
    intro idx counts
    simp only [runLoop, reduceCtorEq, if_false]
    exact ih _ _

theorem runLoop_none_total (cfg : SplitCfg) (fns : List String) :
    ∀ (rows : List CsvRow) (idx : Nat) (counts : String → Nat),
      (runLoop cfg fns none rows idx counts).total = rows.length := by
  intro rows
  induction rows with
  | nil => intro idx counts; rfl
  | cons row rest ih =>
    intro idx counts
    simp only [runLoop, reduceCtorEq, if_false, List.length_cons]
    rw [ih _ _]
    omega

theorem runLoop_none_puts_length (cfg : SplitCfg) (fns : List String) :
    ∀ (rows : List CsvRow) (idx : Nat) (counts : String → Nat),
      (runLoop cfg fns none rows idx counts).puts.length = rows.length := by
  intro rows
  induction rows with
  | nil => intro idx counts; rfl
  | cons row rest ih =>
    intro idx counts
    simp only [runLoop, reduceCtorEq, if_false, List.length_cons]
    rw [ih _ _]

theorem runLoop_none_row_indices (cfg : SplitCfg) (fns : List String) :
    ∀ (rows : List CsvRow) (idx : Nat) (counts : String → Nat),
      (runLoop cfg fns none rows idx counts).files.map FileRecord.row_index =
        List.range' idx rows.length := by
  intro rows
  induction rows with
  | nil => intro idx counts; rfl
  | cons row rest ih =>
    intro idx counts
    simp only [runLoop, reduceCtorEq, if_false, List.length_cons, List.map_cons,
      List.range'_succ]
    rw [ih _ _]

theorem runLoop_none_keys (cfg : SplitCfg) (fns : List String) :
    ∀ (rows : List CsvRow) (idx : Nat) (counts : String → Nat),
      (runLoop cfg fns none rows idx counts).puts.map Prod.fst =
        (finalNames (baseList cfg rows idx) counts).map
          (fun n => cfg.outPre ++ n ++ ".csv") := by
  intro rows
  induction rows with
  | nil => intro idx counts; rfl
  | cons row rest ih =>
    intro idx counts
    simp only [runLoop, reduceCtorEq, if_false, baseList, finalNames, List.map_cons]
    rw [ih _ _]

theorem runLoop_mem_body (cfg : SplitCfg) (fns : List String) (failAt : Option Nat) :
    ∀ (rows : List CsvRow) (idx : Nat) (counts : String → Nat) (kb : String × String),
      kb ∈ (runLoop cfg fns failAt rows idx counts).puts →
      ∃ row ∈ rows, kb.2 = rowOutput cfg fns row := by
  intro rows
  induction rows with
  | nil => intro idx counts kb h; simp [runLoop] at h
  | cons row rest ih =>
    intro idx counts kb h
    rw [runLoop] at h
    split at h
    · simp at h
    · rcases List.mem_cons.mp h with h' | h'
      · exact ⟨row, by simp, by rw [h']⟩
      · obtain ⟨r, hr, hb⟩ := ih _ _ kb h'
        exact ⟨r, List.mem_cons_of_mem row hr, hb⟩

theorem runLoop_fail (cfg : SplitCfg) (fns : List String) :
    ∀ (rows : List CsvRow) (idx j : Nat) (counts : String → Nat),
      idx ≤ j → j < idx + rows.length →
      (runLoop cfg fns (some j) rows idx counts).ok = false ∧
      (runLoop cfg fns (some j) rows idx counts).puts.length = j - idx ∧
      (runLoop cfg fns (some j) rows idx counts).total = j - idx + 1 := by
  intro rows
  induction rows with
  | nil => intro idx j counts h1 h2; simp at h2; omega
  | cons row rest ih =>
    intro idx j counts h1 h2
    by_cases hj : j = idx
    · subst hj
      simp [runLoop]
    · have hlt : idx + 1 ≤ j := by omega
      have hub : j < (idx + 1) + rest.length := by
        simp only [List.length_cons] at h2
        omega
      obtain ⟨hok, hlen, htot⟩ := ih (idx + 1) j (bump counts (baseNameOf cfg idx row)) hlt hub
      have hne : (some j = some idx) = False := by simp [hj]
      simp only [runLoop, hne, if_false, List.length_cons]
      refine ⟨hok, ?_, ?_⟩
      · rw [hlen]; omega
      · rw [htot]; omega

/-! ### Newlines in serialized records -/

theorem mem_doubleQuotes (q : Char) :
    ∀ (l : List Char) (c : Char), c ∈ doubleQuotes q l → c = q ∨ c ∈ l := by
  intro l
  induction l with
  | nil => intro c h; simp [doubleQuotes] at h
  | cons x xs ih =>
    intro c h
    rw [doubleQuotes] at h
    split at h
    · rcases List.mem_cons.mp h with h' | h'
      · exact Or.inl h'
      · rcases List.mem_cons.mp h' with h'' | h''
        · exact Or.inl h''
        · rcases ih c h'' with h3 | h3
          · exact Or.inl h3
          · exact Or.inr (List.mem_cons_of_mem x h3)
    · rcases List.mem_cons.mp h with h' | h'
      · exact Or.inr (by rw [h']; simp)
      · rcases ih c h' with h3 | h3
        · exact Or.inl h3
        · exact Or.inr (List.mem_cons_of_mem x h3)

theorem csvCell_no_newline (d q : Char) (lone : Bool) (s : String)
    (hq : q ≠ '\n') (hs : '\n' ∉ s.data) : '\n' ∉ (csvCell d q lone s).data := by
  rw [csvCell]
  split
  · intro h
    rcases List.mem_cons.mp h with h' | h'
    · exact hq h'.symm
    · rcases List.mem_append.mp h' with h'' | h''
      · rcases mem_doubleQuotes q s.data '\n' h'' with h3 | h3
        · exact hq h3.symm
        · exact hs h3
      · simp at h''
        exact hq h''.symm
  · exact hs

theorem joinCells_no_newline (d : Char) (hd : d ≠ '\n') :
    ∀ (cells : List String), (∀ s ∈ cells, '\n' ∉ s.data) →
      '\n' ∉ (joinCells d cells).data := by
  intro cells
  induction cells with
  | nil => intro _ h; simp [joinCells] at h
  | cons s rest ih =>
    intro hall
    cases rest with
    | nil =>
      show '\n' ∉ (joinCells d [s]).data
      rw [joinCells]
      exact hall s (by simp)
    | cons s' rest' =>
      rw [joinCells]
      intro h
      simp only [String.data_append] at h
      rcases List.mem_append.mp h with h' | h'
      · rcases List.mem_append.mp h' with h'' | h''
        · exact hall s (by simp) h''
        · simp at h''
          exact hd h''.symm
      · exact ih (fun t ht => hall t (List.mem_cons_of_mem s ht)) h'

theorem csvRecord_no_newline (d q : Char) (hd : d ≠ '\n') (hq : q ≠ '\n')
    (cells : List String) (h : ∀ s ∈ cells, '\n' ∉ s.data) :
    '\n' ∉ (csvRecord d q cells).data := by
  rw [csvRecord]
  apply joinCells_no_newline d hd
  intro s hs
  rw [List.mem_map] at hs
  obtain ⟨t, ht, rfl⟩ := hs
  exact csvCell_no_newline d q _ t hq (h t ht)

theorem string_empty_append (s : String) : "" ++ s = s := by
  apply String.ext
  simp [String.data_append]

theorem rowOutput_no_header (cfg : SplitCfg) (fns : List String) (row : CsvRow)
    (hh : cfg.includeHeader = false) :
    rowOutput cfg fns row =
      csvRecord cfg.delimiter cfg.quotechar (rowCells fns row) ++ "\n" := by
  rw [rowOutput, hh]
  simp only [Bool.false_eq_true, if_false]
  exact string_empty_append _

theorem rowOutput_single_newline (cfg : SplitCfg) (fns : List String) (row : CsvRow)
    (hh : cfg.includeHeader = false)
    (hd : cfg.delimiter ≠ '\n') (hq : cfg.quotechar ≠ '\n')
    (hcells : ∀ s ∈ rowCells fns row, '\n' ∉ s.data) :
    (rowOutput cfg fns row).data.count '\n' = 1 := by
  rw [rowOutput_no_header cfg fns row hh, String.data_append, List.count_append]
  have h0 : (csvRecord cfg.delimiter cfg.quotechar (rowCells fns row)).data.count '\n' = 0 :=
    List.count_eq_zero.mpr (csvRecord_no_newline _ _ hd hq _ hcells)
  rw [h0]
  rfl

/-! ### Concrete run data used by counterexamples and witnesses -/

/-- A concrete resolved configuration (header excluded, reporting enabled). -/
def cfg0 : SplitCfg :=
  { idColumn := "id", delimiter := ',', quotechar := '"', includeHeader := false,
    writeRunLog := true, outputBucket := "bkt", outPre := "out/",
    inputUri := "s3://in/input.csv" }

/-- Rows whose identifiers are `a`, `a-1`, `a`: the suffixing scheme makes
rows 2 and 3 collide on the key `out/a-1.csv`. -/
def rowsClash : List CsvRow := [[("id", "a")], [("id", "a-1")], [("id", "a")]]

/-- Rows whose identifiers are `a`, `a`, `a`. -/
def rowsAAA : List CsvRow := [[("id", "a")], [("id", "a")], [("id", "a")]]

/-- Two rows with the same identifier `a`. -/
def rowsAA : List CsvRow := [[("id", "a")], [("id", "a")]]

/-! ### The claims -/

/-- C8: sanitization is idempotent: for every string `x`,
`safe_filename (safe_filename x) = safe_filename x`, where `safe_filename`
replaces runs of characters outside the allow-set with a single underscore,
trims leading/trailing `.`, `_`, `-`, and returns `"unnamed"` when the
result is empty. -/
theorem claim_C8_thm (x : String) :
    safe_filename (safe_filename x) = safe_filename x :=
  safe_filename_idem x

/-- C9 counterexample: the parser accepts `s3:///key.csv` (it starts with the
scheme, so no error is raised) yet returns an empty bucket, refuting the
claim that every accepted locator has a non-empty bucket. -/
theorem claim_C9_cex :
    parse_s3_uri "s3:///key.csv" = some ("", "key.csv") ∧
    ("" : String).data = [] := by
  constructor <;> decide

/-- C9 (amended): for every accepted locator the bucket contains no path
separator, and the bucket is non-empty whenever the remainder after the
scheme is non-empty and does not itself start with the separator (the
source never checks the latter, so `s3://` and `s3:///k` yield an empty
bucket). -/
theorem claim_C9_thm (uri b k : String) (h : parse_s3_uri uri = some (b, k)) :
    (∀ c ∈ b.data, c ≠ '/') ∧
    (∀ ch t, uri.data.drop 5 = ch :: t → ch ≠ '/' → b ≠ "") := by
  rw [parse_s3_uri] at h
  split at h
  · have h' := Option.some.inj h
    have hb := congrArg Prod.fst h'
    simp only at hb
    constructor
    · intro c hc
      rw [← hb] at hc
      have := List.mem_takeWhile_imp hc
      simpa using this
    · intro ch t hdrop hch
      rw [← hb, hdrop, List.takeWhile_cons, if_pos (by simpa using hch)]
      intro hcontra
      have : ch :: List.takeWhile (fun c => !(c == '/')) t = ([] : List Char) :=
        congrArg String.data hcontra
      exact List.noConfusion this
  · exact Option.noConfusion h

/-- C9 witness: a well-formed locator through the amended theorem. -/
theorem claim_C9_wit :
    parse_s3_uri "s3://bkt/key.csv" = some ("bkt", "key.csv") ∧
    ("bkt" : String) ≠ "" :=
  ⟨by decide,
   (claim_C9_thm "s3://bkt/key.csv" "bkt" "key.csv" (by decide)).2
     'b' "kt/key.csv".data (by decide) (by decide)⟩

/-- C10: `include_header` and `write_run_log` are enabled exactly when the
lowercased raw value is one of `1`, `true`, `t`, `yes`, `y`; any other value
(such as `on` or `enabled`) yields `false` — the feature is silently
disabled, with no error and no fallback to the default `true`. -/
theorem claim_C10_thm :
    (∀ s t : String,
      ((resolveFlags s t).1 = true ↔ pyLower s ∈ ["1", "true", "t", "yes", "y"]) ∧
      ((resolveFlags s t).2 = true ↔ pyLower t ∈ ["1", "true", "t", "yes", "y"])) ∧
    resolveFlags "on" "enabled" = (false, false) ∧
    str2bool "TRUE" = true ∧ str2bool "Yes" = true ∧
    str2bool "ture" = false ∧ str2bool "" = false := by
  refine ⟨?_, by decide, by decide, by decide, by decide, by decide⟩
  intro s t
  constructor
  · show str2bool s = true ↔ _
    rw [str2bool, List.elem_iff]
  · show str2bool t = true ↔ _
    rw [str2bool, List.elem_iff]

/-- C4: a missing or empty header (`fieldnames` `None` or `[]`) aborts the
run before any row is processed: no per-row object and no manifest is
written and the job fails. -/
theorem claim_C4_thm (cfg : SplitCfg) (header : Option (List String))
    (rows : List CsvRow) (failAt : Option Nat)
    (h : header = none ∨ header = some []) :
    (runMain cfg header rows failAt).puts = [] ∧
    (runMain cfg header rows failAt).manifest = none ∧
    (runMain cfg header rows failAt).succeeded = false := by
  rcases h with h | h <;> subst h <;> exact ⟨rfl, rfl, rfl⟩

/-- C4 witness: an empty header row on a non-empty body. -/
theorem claim_C4_wit :
    (runMain cfg0 (some []) [[("id", "a")]] none).puts = [] ∧
    (runMain cfg0 (some []) [[("id", "a")]] none).manifest = none ∧
    (runMain cfg0 (some []) [[("id", "a")]] none).succeeded = false :=
  claim_C4_thm cfg0 (some []) [[("id", "a")]] none (Or.inr rfl)

/-- C5 counterexample: for the identifier value `!!!` at row 1 the sanitizer
yields its fallback token `unnamed`, and the base name is `unnamed`, not the
claimed `row-1`: the secondary fallback on line 196 is unreachable because
`safe_filename` never returns an empty string. -/
theorem claim_C5_cex :
    safe_filename "!!!" = "unnamed" ∧
    baseNameOf cfg0 1 [("id", "!!!")] = "unnamed" ∧
    "unnamed" ≠ "row-1" := by
  refine ⟨by decide, by decide, by decide⟩

/-- C5 (amended): the raw name is the identifier column's value, or
`row-{idx}` when the column is absent or its value is empty; the base name
is always `safe_filename(rawName)` — when sanitization yields the fallback
token the base name is `unnamed`, never `row-{idx}`. -/
theorem claim_C5_thm (cfg : SplitCfg) (idx : Nat) (row : CsvRow) :
    (row.lookup cfg.idColumn = none → rawNameOf cfg idx row = "row-" ++ Nat.repr idx) ∧
    (row.lookup cfg.idColumn = some "" → rawNameOf cfg idx row = "row-" ++ Nat.repr idx) ∧
    (∀ v, row.lookup cfg.idColumn = some v → v ≠ "" →
      rawNameOf cfg idx row = v) ∧
    baseNameOf cfg idx row = safe_filename (rawNameOf cfg idx row) := by
  refine ⟨?_, ?_, ?_, ?_⟩
  · intro h; rw [rawNameOf, h]
  · intro h; rw [rawNameOf, h]; simp
  · intro v h hv; rw [rawNameOf, h]; simp [hv]
  · simp only [baseNameOf]
    rw [if_neg (safe_filename_ne_empty _)]

/-- C5 witness: a present, non-empty identifier value. -/
theorem claim_C5_wit :
    rawNameOf cfg0 1 [("id", "x")] = "x" ∧
    baseNameOf cfg0 1 [("id", "x")] = safe_filename (rawNameOf cfg0 1 [("id", "x")]) :=
  ⟨(claim_C5_thm cfg0 1 [("id", "x")]).2.2.1 "x" (by decide) (by decide),
   (claim_C5_thm cfg0 1 [("id", "x")]).2.2.2⟩

/-- Appending the output prefix and the `.csv` suffix preserves distinctness
of final names. -/
theorem key_affix_inj (pre n1 n2 : String)
    (h : pre ++ n1 ++ ".csv" = pre ++ n2 ++ ".csv") : n1 = n2 := by
  have hdata := congrArg String.data h
  simp only [String.data_append] at hdata
  exact String.ext (List.append_cancel_left (List.append_cancel_right hdata))

/-- C1 counterexample: identifiers `a`, `a-1`, `a` in one run produce the
keys `out/a.csv`, `out/a-1.csv`, `out/a-1.csv` — rows 2 and 3 are written to
the same final key, refuting pairwise distinctness. -/
theorem claim_C1_cex :
    (runMain cfg0 (some ["id"]) rowsClash none).puts.map Prod.fst =
      ["out/a.csv", "out/a-1.csv", "out/a-1.csv"] ∧
    ¬ ((runMain cfg0 (some ["id"]) rowsClash none).puts.map Prod.fst).Nodup := by
  constructor <;> decide

/-- C1 (amended): distinctness of final keys holds between any two rows
whose sanitized base names are equal (the registry suffixes the later one);
it can fail between rows with different base names, as the counterexample
shows. -/
theorem claim_C1_thm (cfg : SplitCfg) (f : String) (fs : List String)
    (rows : List CsvRow) (p q : Nat) (b : String) (hpq : p < q)
    (hbp : (baseList cfg rows 1)[p]? = some b)
    (hbq : (baseList cfg rows 1)[q]? = some b) :
    ((runMain cfg (some (f :: fs)) rows none).puts.map Prod.fst)[p]? ≠
    ((runMain cfg (some (f :: fs)) rows none).puts.map Prod.fst)[q]? := by
  have hok := runLoop_none_ok cfg (f :: fs) rows 1 (fun _ => 0)
  simp only [runMain, hok, if_true]
  rw [runLoop_none_keys cfg (f :: fs) rows 1 (fun _ => 0),
    List.getElem?_map, List.getElem?_map,
    finalNames_getElem? _ _ p b hbp, finalNames_getElem? _ _ q b hbq]
  rw [Option.map_some', Option.map_some']
  intro h
  have hn := key_affix_inj cfg.outPre _ _ (Option.some.inj h)
  have hcnt := count_take_lt (baseList cfg rows 1) p q b hpq hbp
  exact finalNameFor_ne b _ _ (by omega) hn

/-- C1 witness: two rows with the same identifier receive distinct keys. -/
theorem claim_C1_wit :
    ((runMain cfg0 (some ["id"]) rowsAA none).puts.map Prod.fst)[0]? ≠
    ((runMain cfg0 (some ["id"]) rowsAA none).puts.map Prod.fst)[1]? :=
  claim_C1_thm cfg0 "id" [] rowsAA 0 1 "a" (by decide) (by decide) (by decide)

/-- C2 counterexample: a write failure injected at row 1 of a 2-row run
leaves 0 objects and no manifest as claimed, but the failure report's
`processed_rows` is 1, not 0: `total` is incremented before the write. -/
theorem claim_C2_cex :
    (runMain cfg0 (some ["id"]) rowsAA (some 1)).puts.length = 0 ∧
    (runMain cfg0 (some ["id"]) rowsAA (some 1)).manifest = none ∧
    (runMain cfg0 (some ["id"]) rowsAA (some 1)).failReport = some ⟨1⟩ ∧
    some (⟨1⟩ : FailReport) ≠ some (⟨0⟩ : FailReport) := by
  refine ⟨by decide, by decide, by decide, by decide⟩

/-- C2 (amended): a storage write failure at row `j` of a run with at least
`j` data rows leaves exactly `j-1` per-row objects, no manifest, and — when
reporting is enabled — a failure report whose `processed_rows` equals `j`
(the row counter is incremented before the write is attempted). -/
theorem claim_C2_thm (cfg : SplitCfg) (f : String) (fs : List String)
    (rows : List CsvRow) (j : Nat)
    (h1 : 1 ≤ j) (h2 : j ≤ rows.length) (hlog : cfg.writeRunLog = true) :
    (runMain cfg (some (f :: fs)) rows (some j)).puts.length = j - 1 ∧
    (runMain cfg (some (f :: fs)) rows (some j)).manifest = none ∧
    (runMain cfg (some (f :: fs)) rows (some j)).failReport = some ⟨j⟩ := by
  obtain ⟨hok, hlen, htot⟩ :=
    runLoop_fail cfg (f :: fs) rows 1 j (fun _ => 0) h1 (by omega)
  have hmain : runMain cfg (some (f :: fs)) rows (some j) =
      { puts := (runLoop cfg (f :: fs) (some j) rows 1 (fun _ => 0)).puts
        manifest := none
        summaryWritten := false
        failReport := if cfg.writeRunLog then
            some ⟨(runLoop cfg (f :: fs) (some j) rows 1 (fun _ => 0)).total⟩ else none
        succeeded := false } := by
    simp only [runMain, hok, Bool.false_eq_true, if_false]
  rw [hmain, htot, hlog]
  refine ⟨hlen, rfl, ?_⟩
  simp only [if_true]
  have : j - 1 + 1 = j := by omega
  rw [this]

/-- C2 witness: failure injected at row 2 of a 3-row run. -/
theorem claim_C2_wit :
    (runMain cfg0 (some ["id"]) rowsAAA (some 2)).puts.length = 1 ∧
    (runMain cfg0 (some ["id"]) rowsAAA (some 2)).manifest = none ∧
    (runMain cfg0 (some ["id"]) rowsAAA (some 2)).failReport = some ⟨2⟩ :=
  claim_C2_thm cfg0 "id" [] rowsAAA 2 (by decide) (by decide) (by decide)

/-- C3: a valid run (non-empty header, no failure) over `k` data rows writes
exactly `k` per-row objects plus one manifest whose `total_rows` is `k` and
whose `files` list has length `k` with records in row order (their
`row_index` fields are `1, ..., k` in order). -/
theorem claim_C3_thm (cfg : SplitCfg) (f : String) (fs : List String)
    (rows : List CsvRow) :
    (runMain cfg (some (f :: fs)) rows none).succeeded = true ∧
    (runMain cfg (some (f :: fs)) rows none).puts.length = rows.length ∧
    ∃ m, (runMain cfg (some (f :: fs)) rows none).manifest = some m ∧
      m.total_rows = rows.length ∧ m.files.length = rows.length ∧
      m.files.map FileRecord.row_index = List.range' 1 rows.length := by
  have hok := runLoop_none_ok cfg (f :: fs) rows 1 (fun _ => 0)
  have hidx := runLoop_none_row_indices cfg (f :: fs) rows 1 (fun _ => 0)
  have hmain : runMain cfg (some (f :: fs)) rows none =
      { puts := (runLoop cfg (f :: fs) none rows 1 (fun _ => 0)).puts
        manifest := some
          { input := cfg.inputUri
            output_prefix_uri := "s3://" ++ cfg.outputBucket ++ "/" ++ cfg.outPre
            files := (runLoop cfg (f :: fs) none rows 1 (fun _ => 0)).files
            total_rows := (runLoop cfg (f :: fs) none rows 1 (fun _ => 0)).total
            id_column := cfg.idColumn }
        summaryWritten := cfg.writeRunLog
        failReport := none
        succeeded := true } := by
    simp only [runMain, hok, if_true]
  rw [hmain]
  refine ⟨rfl, runLoop_none_puts_length cfg (f :: fs) rows 1 (fun _ => 0),
    ⟨_, rfl, runLoop_none_total cfg (f :: fs) rows 1 (fun _ => 0), ?_, hidx⟩⟩
  have := congrArg List.length hidx
  rwa [List.length_map, List.length_range'] at this

/-- C6: within one run, the first row with sanitized base name `b` gets the
final name `b` and the row with `n` earlier occurrences of `b` gets
`b-n` (so the key is `{prefix}{finalNameFor b n}.csv`); in particular the
identifiers `a`, `a`, `a` yield `out/a.csv`, `out/a-1.csv`, `out/a-2.csv`
in that exact order. -/
theorem claim_C6_thm :
    (∀ (cfg : SplitCfg) (f : String) (fs : List String) (rows : List CsvRow)
       (p : Nat) (b : String),
       (baseList cfg rows 1)[p]? = some b →
       ((runMain cfg (some (f :: fs)) rows none).puts.map Prod.fst)[p]? =
         some (cfg.outPre ++
           finalNameFor b (((baseList cfg rows 1).take p).count b) ++ ".csv")) ∧
    (runMain cfg0 (some ["id"]) rowsAAA none).puts.map Prod.fst =
      ["out/a.csv", "out/a-1.csv", "out/a-2.csv"] := by
  constructor
  · intro cfg f fs rows p b hb
    have hok := runLoop_none_ok cfg (f :: fs) rows 1 (fun _ => 0)
    simp only [runMain, hok, if_true]
    rw [runLoop_none_keys cfg (f :: fs) rows 1 (fun _ => 0), List.getElem?_map,
        finalNames_getElem? _ _ p b hb]
    simp
  · decide

/-- C6 witness: the second duplicate of base name `a` gets key `out/a-1.csv`. -/
theorem claim_C6_wit :
    ((runMain cfg0 (some ["id"]) rowsAAA none).puts.map Prod.fst)[1]? =
      some "out/a-1.csv" := by
  have h := claim_C6_thm.1 cfg0 "id" [] rowsAAA 1 "a" (by decide)
  rw [h]
  decide

/-- C7: with the header-inclusion flag false, every per-row object written
by a successful run consists of the one serialized data row followed by a
single newline terminator and no header line; in particular (for data free
of embedded newlines, and delimiter/quote characters other than newline) the
body contains exactly one newline. -/
theorem claim_C7_thm (cfg : SplitCfg) (f : String) (fs : List String)
    (rows : List CsvRow)
    (hh : cfg.includeHeader = false)
    (hd : cfg.delimiter ≠ '\n') (hq : cfg.quotechar ≠ '\n')
    (hvals : ∀ row ∈ rows, ∀ s ∈ rowCells (f :: fs) row, '\n' ∉ s.data) :
    ∀ kb ∈ (runMain cfg (some (f :: fs)) rows none).puts,
      (∃ row ∈ rows,
        kb.2 = csvRecord cfg.delimiter cfg.quotechar (rowCells (f :: fs) row) ++ "\n") ∧
      kb.2.data.count '\n' = 1 := by
  intro kb hkb
  have hok := runLoop_none_ok cfg (f :: fs) rows 1 (fun _ => 0)
  simp only [runMain, hok, if_true] at hkb
  obtain ⟨row, hrow, hbody⟩ :=
    runLoop_mem_body cfg (f :: fs) none rows 1 (fun _ => 0) kb hkb
  constructor
  · exact ⟨row, hrow, by rw [hbody, rowOutput_no_header cfg _ row hh]⟩
  · rw [hbody]
    exact rowOutput_single_newline cfg _ row hh hd hq (hvals row hrow)

/-- C7 witness: the single data row `a` yields the body `a` + newline. -/
theorem claim_C7_wit :
    ("out/a.csv", ("a\n" : String)) ∈ (runMain cfg0 (some ["id"]) [[("id", "a")]] none).puts ∧
    ("a\n" : String).data.count '\n' = 1 := by
  refine ⟨by decide, ?_⟩
  have h := claim_C7_thm cfg0 "id" [] [[("id", "a")]] rfl (by decide) (by decide)
    (by decide) ("out/a.csv", "a\n") (by decide)
  exact h.2

/-- C3 witness: a concrete 2-row run writes 2 objects. -/
theorem claim_C3_wit :
    (runMain cfg0 (some ["id"]) rowsAA none).puts.length = 2 :=
  (claim_C3_thm cfg0 "id" [] rowsAA).2.1

/-- C8 witness: idempotence at a concrete string. -/
theorem claim_C8_wit :
    safe_filename (safe_filename "a b!") = safe_filename "a b!" :=
  claim_C8_thm "a b!"

/-- C10 witness: canonical truthy values through the theorem. -/
theorem claim_C10_wit :
    (resolveFlags "1" "true").1 = true ∧ (resolveFlags "1" "true").2 = true :=
  ⟨(claim_C10_thm.1 "1" "true").1.mpr (by decide),
   (claim_C10_thm.1 "1" "true").2.mpr (by decide)⟩
